import Mathlib

/-!
Verification of the OTEL request/response capture middleware
(`common/observability/otel_fastapi.py`) of autobots-devtools-shared-lib.

Shallow embedding conventions:
* Python `bytes` are `List Nat` (each element a byte value `< 256` where relevant);
* Python `str` values are `List Nat` of Unicode code points where byte-level
  encoding matters (body content), `List Char` for paths, and Lean `String`
  for small fixed tags such as ASGI message types;
* Python runtime primitives that the middleware relies on
  (`bytes.decode("utf-8")`, `base64.b64encode`, `json.loads`) are modelled by
  executable Lean functions below;
* the ASGI callback protocol is modelled as an explicit event trace: the
  wrapped app issues a list of `receive`/`send` calls and the middleware's
  processing of those calls is a pure function producing the trace of
  observable events (underlying receives, messages delivered to the app,
  span-attribute commits, messages forwarded to the underlying send).
-/

namespace OtelCapture

/-! ### UTF-8, modelling Python `bytes.decode("utf-8")` / `str.encode("utf-8")` -/

/-- Encode one Unicode code point as UTF-8 bytes (arithmetic formulation). -/
def utf8EncodeChar (c : Nat) : List Nat :=
  if c < 0x80 then [c]
  else if c < 0x800 then [0xC0 + c / 64, 0x80 + c % 64]
  else if c < 0x10000 then [0xE0 + c / 4096, 0x80 + c / 64 % 64, 0x80 + c % 64]
  else [0xF0 + c / 262144, 0x80 + c / 4096 % 64, 0x80 + c / 64 % 64, 0x80 + c % 64]

/-- Encode a sequence of code points as UTF-8 bytes (Python `str.encode`). -/
def utf8Encode (cs : List Nat) : List Nat := cs.flatMap utf8EncodeChar

/-- Fuel-driven worker for the strict UTF-8 decoder.  One unit of fuel is
spent per decoded code point, so `bs.length` fuel always suffices. -/
def utf8DecodeAux : Nat → List Nat → Option (List Nat)
  | _, [] => some []
  | 0, _ :: _ => none
  | fuel + 1, b0 :: rest =>
    if b0 < 0x80 then
      (utf8DecodeAux fuel rest).map (fun cs => b0 :: cs)
    else if b0 < 0xC2 then none
    else if b0 < 0xE0 then
      if 1 ≤ rest.length ∧ (0x80 ≤ rest.getD 0 0 ∧ rest.getD 0 0 < 0xC0) then
        (utf8DecodeAux fuel (rest.drop 1)).map
          (fun cs => ((b0 - 0xC0) * 64 + (rest.getD 0 0 - 0x80)) :: cs)
      else none
    else if b0 < 0xF0 then
      if 2 ≤ rest.length ∧ (0x80 ≤ rest.getD 0 0 ∧ rest.getD 0 0 < 0xC0) ∧
          (0x80 ≤ rest.getD 1 0 ∧ rest.getD 1 0 < 0xC0) ∧
          (b0 = 0xE0 → 0xA0 ≤ rest.getD 0 0) ∧ (b0 = 0xED → rest.getD 0 0 < 0xA0) then
        (utf8DecodeAux fuel (rest.drop 2)).map
          (fun cs =>
            ((b0 - 0xE0) * 4096 + (rest.getD 0 0 - 0x80) * 64 + (rest.getD 1 0 - 0x80)) :: cs)
      else none
    else if b0 < 0xF5 then
      if 3 ≤ rest.length ∧ (0x80 ≤ rest.getD 0 0 ∧ rest.getD 0 0 < 0xC0) ∧
          (0x80 ≤ rest.getD 1 0 ∧ rest.getD 1 0 < 0xC0) ∧
          (0x80 ≤ rest.getD 2 0 ∧ rest.getD 2 0 < 0xC0) ∧
          (b0 = 0xF0 → 0x90 ≤ rest.getD 0 0) ∧ (b0 = 0xF4 → rest.getD 0 0 < 0x90) then
        (utf8DecodeAux fuel (rest.drop 3)).map
          (fun cs =>
            ((b0 - 0xF0) * 262144 + (rest.getD 0 0 - 0x80) * 4096 +
              (rest.getD 1 0 - 0x80) * 64 + (rest.getD 2 0 - 0x80)) :: cs)
      else none
    else none

/-- Strict UTF-8 decoder, modelling Python `bytes.decode("utf-8")`:
rejects stray continuation bytes, overlong forms, surrogates, code points
above U+10FFFF and truncated sequences.  Returns the code points on success. -/
def utf8Decode (bs : List Nat) : Option (List Nat) := utf8DecodeAux bs.length bs

theorem utf8DecodeAux_encode :
    ∀ fuel bs cs, utf8DecodeAux fuel bs = some cs → utf8Encode cs = bs := by
  intro fuel
  induction fuel with
  | zero =>
    intro bs cs h
    match bs with
    | [] =>
      simp only [utf8DecodeAux, Option.some.injEq] at h
      simp [← h, utf8Encode]
    | _ :: _ => simp [utf8DecodeAux] at h
  | succ fuel ih =>
    intro bs cs h
    match bs with
    | [] =>
      simp only [utf8DecodeAux, Option.some.injEq] at h
      simp [← h, utf8Encode]
    | b0 :: rest =>
      rw [utf8DecodeAux] at h
      by_cases h1 : b0 < 0x80
      · rw [if_pos h1] at h
        cases hrec : utf8DecodeAux fuel rest with
        | none => rw [hrec] at h; simp at h
        | some cs' =>
          rw [hrec] at h
          simp only [Option.map_some', Option.some.injEq] at h
          subst h
          have hr := ih rest cs' hrec
          simp only [utf8Encode, List.flatMap_cons] at hr ⊢
          rw [hr]
          simp [utf8EncodeChar, h1]
      · rw [if_neg h1] at h
        by_cases h2 : b0 < 0xC2
        · rw [if_pos h2] at h; simp at h
        rw [if_neg h2] at h
        by_cases h3 : b0 < 0xE0
        · rw [if_pos h3] at h
          split at h
          · rename_i hb
            match rest, hb with
            | b1 :: r, hb =>
              simp only [List.getD_cons_zero, List.drop_succ_cons, List.drop_zero] at h hb
              cases hrec : utf8DecodeAux fuel r with
              | none => rw [hrec] at h; simp at h
              | some cs' =>
                rw [hrec] at h
                simp only [Option.map_some', Option.some.injEq] at h
                subst h
                have hr := ih r cs' hrec
                simp only [utf8Encode, List.flatMap_cons] at hr ⊢
                rw [hr]
                have henc : utf8EncodeChar ((b0 - 0xC0) * 64 + (b1 - 0x80)) = [b0, b1] := by
                  unfold utf8EncodeChar
                  rw [if_neg (by omega), if_pos (by omega)]
                  simp only [List.cons.injEq, and_true]
                  omega
                rw [henc]; rfl
          · simp at h
        · rw [if_neg h3] at h
          by_cases h4 : b0 < 0xF0
          · rw [if_pos h4] at h
            split at h
            · rename_i hb
              match rest, hb with
              | b1 :: b2 :: r, hb =>
                simp only [List.getD_cons_zero, List.getD_cons_succ,
                  List.drop_succ_cons, List.drop_zero] at h hb
                cases hrec : utf8DecodeAux fuel r with
                | none => rw [hrec] at h; simp at h
                | some cs' =>
                  rw [hrec] at h
                  simp only [Option.map_some', Option.some.injEq] at h
                  subst h
                  have hr := ih r cs' hrec
                  simp only [utf8Encode, List.flatMap_cons] at hr ⊢
                  rw [hr]
                  have henc :
                      utf8EncodeChar ((b0 - 0xE0) * 4096 + (b1 - 0x80) * 64 + (b2 - 0x80)) =
                        [b0, b1, b2] := by
                    unfold utf8EncodeChar
                    rw [if_neg (by omega), if_neg (by omega), if_pos (by omega)]
                    simp only [List.cons.injEq, and_true]
                    omega
                  rw [henc]; rfl
            · simp at h
          · rw [if_neg h4] at h
            by_cases h5 : b0 < 0xF5
            · rw [if_pos h5] at h
              split at h
              · rename_i hb
                match rest, hb with
                | b1 :: b2 :: b3 :: r, hb =>
                  simp only [List.getD_cons_zero, List.getD_cons_succ,
                    List.drop_succ_cons, List.drop_zero] at h hb
                  cases hrec : utf8DecodeAux fuel r with
                  | none => rw [hrec] at h; simp at h
                  | some cs' =>
                    rw [hrec] at h
                    simp only [Option.map_some', Option.some.injEq] at h
                    subst h
                    have hr := ih r cs' hrec
                    simp only [utf8Encode, List.flatMap_cons] at hr ⊢
                    rw [hr]
                    have henc :
                        utf8EncodeChar
                            ((b0 - 0xF0) * 262144 + (b1 - 0x80) * 4096 + (b2 - 0x80) * 64 +
                              (b3 - 0x80)) =
                          [b0, b1, b2, b3] := by
                      unfold utf8EncodeChar
                      rw [if_neg (by omega), if_neg (by omega), if_neg (by omega)]
                      simp only [List.cons.injEq, and_true]
                      omega
                    rw [henc]; rfl
              · simp at h
            · rw [if_neg h5] at h; simp at h

/-- Round trip: a byte string that decodes as UTF-8 is recovered by encoding
the decoded code points. -/
theorem utf8Decode_encode {bs cs : List Nat} (h : utf8Decode bs = some cs) :
    utf8Encode cs = bs :=
  utf8DecodeAux_encode bs.length bs cs h


/-! ### Base64, modelling Python `base64.b64encode` / `base64.b64decode` -/

/-- The base64 alphabet: value `0..63` to ASCII code of the encoding character. -/
def b64Char (n : Nat) : Nat :=
  if n < 26 then 65 + n
  else if n < 52 then 97 + (n - 26)
  else if n < 62 then 48 + (n - 52)
  else if n = 62 then 43
  else 47

/-- Inverse of the base64 alphabet (ASCII code back to `0..63`). -/
def b64Inv (c : Nat) : Option Nat :=
  if c = 43 then some 62
  else if c = 47 then some 63
  else if 48 ≤ c ∧ c ≤ 57 then some (c - 48 + 52)
  else if 65 ≤ c ∧ c ≤ 90 then some (c - 65)
  else if 97 ≤ c ∧ c ≤ 122 then some (c - 97 + 26)
  else none

theorem b64Inv_b64Char : ∀ n, n < 64 → b64Inv (b64Char n) = some n := by decide

theorem b64Char_ne_pad (n : Nat) : b64Char n ≠ 61 := by
  unfold b64Char
  repeat' split
  all_goals omega

/-- Model of `base64.b64encode`: bytes to the ASCII codes of the standard (padded)
base64 encoding. -/
def base64Encode : List Nat → List Nat
  | [] => []
  | [a] => [b64Char (a / 4), b64Char (a % 4 * 16), 61, 61]
  | [a, b] => [b64Char (a / 4), b64Char (a % 4 * 16 + b / 16), b64Char (b % 16 * 4), 61]
  | a :: b :: c :: rest =>
    b64Char (a / 4) :: b64Char (a % 4 * 16 + b / 16) :: b64Char (b % 16 * 4 + c / 64) ::
      b64Char (c % 64) :: base64Encode rest

/-- Model of `base64.b64decode` on standard padded input: ASCII codes back to bytes. -/
def base64Decode : List Nat → Option (List Nat)
  | [] => some []
  | c0 :: c1 :: c2 :: c3 :: rest =>
    (b64Inv c0).bind fun v0 =>
      (b64Inv c1).bind fun v1 =>
        if c2 = 61 ∧ c3 = 61 ∧ rest = [] then
          some [v0 * 4 + v1 / 16]
        else if c3 = 61 ∧ rest = [] then
          (b64Inv c2).bind fun v2 =>
            some [v0 * 4 + v1 / 16, v1 % 16 * 16 + v2 / 4]
        else
          (b64Inv c2).bind fun v2 =>
            (b64Inv c3).bind fun v3 =>
              (base64Decode rest).map fun bs =>
                (v0 * 4 + v1 / 16) :: (v1 % 16 * 16 + v2 / 4) :: (v2 % 4 * 64 + v3) :: bs
  | _ => none

theorem base64Decode_encode_aux :
    ∀ n bs, bs.length ≤ n → (∀ x ∈ bs, x < 256) →
      base64Decode (base64Encode bs) = some bs := by
  intro n
  induction n with
  | zero =>
    intro bs hlen _
    match bs with
    | [] => rfl
    | _ :: _ => simp at hlen
  | succ n ih =>
    intro bs hlen hlt
    match bs with
    | [] => rfl
    | [a] =>
      have ha : a < 256 := hlt a (by simp)
      rw [show base64Encode [a] =
            [b64Char (a / 4), b64Char (a % 4 * 16), 61, 61] from rfl]
      rw [base64Decode]
      rw [b64Inv_b64Char _ (by omega), b64Inv_b64Char _ (by omega)]
      simp only [Option.some_bind']
      split
      · simp only [Option.some.injEq, List.cons.injEq, and_true]
        omega
      · rename_i hcc
        exact absurd (by simp) hcc
    | [a, b] =>
      have ha : a < 256 := hlt a (by simp)
      have hbb : b < 256 := hlt b (by simp)
      rw [show base64Encode [a, b] =
            [b64Char (a / 4), b64Char (a % 4 * 16 + b / 16), b64Char (b % 16 * 4), 61] from rfl]
      rw [base64Decode]
      rw [b64Inv_b64Char _ (by omega), b64Inv_b64Char _ (by omega)]
      simp only [Option.some_bind']
      split
      · rename_i hcc
        exact absurd hcc.1 (b64Char_ne_pad _)
      split
      · rw [b64Inv_b64Char _ (by omega)]
        simp only [Option.some_bind', Option.some.injEq, List.cons.injEq, and_true]
        omega
      · rename_i hcc
        exact absurd (by simp) hcc
    | a :: b :: c :: rest =>
      have ha : a < 256 := hlt a (by simp)
      have hbb : b < 256 := hlt b (by simp)
      have hc : c < 256 := hlt c (by simp)
      have hlr : rest.length ≤ n := by simp at hlen; omega
      have hltr : ∀ x ∈ rest, x < 256 := fun x hx => hlt x (by simp [hx])
      rw [show base64Encode (a :: b :: c :: rest) =
            b64Char (a / 4) :: b64Char (a % 4 * 16 + b / 16) ::
              b64Char (b % 16 * 4 + c / 64) :: b64Char (c % 64) ::
                base64Encode rest from rfl]
      rw [base64Decode]
      rw [b64Inv_b64Char _ (by omega), b64Inv_b64Char _ (by omega)]
      simp only [Option.some_bind']
      split
      · rename_i hcc
        exact absurd hcc.1 (b64Char_ne_pad _)
      split
      · rename_i hcc
        exact absurd hcc.1 (b64Char_ne_pad _)
      rw [b64Inv_b64Char _ (by omega), b64Inv_b64Char _ (by omega)]
      simp only [Option.some_bind']
      rw [ih rest hlr hltr]
      simp only [Option.map_some', Option.some.injEq, List.cons.injEq]
      refine ⟨by omega, by omega, by omega, trivial⟩

/-- Round trip: standard base64 decoding recovers the bytes that were encoded. -/
theorem base64Decode_encode {bs : List Nat} (h : ∀ x ∈ bs, x < 256) :
    base64Decode (base64Encode bs) = some bs :=
  base64Decode_encode_aux bs.length bs le_rfl h


/-! ### `_truncate_body` and its `CapturedBody` record -/

/-- Code points of a Lean string literal (used for fixed text from the source). -/
def strToCodes (s : String) : List Nat := s.data.map Char.toNat

/-- The record returned by `_truncate_body` (dict with keys `content`,
`size_bytes`, `truncated`, `encoding`). -/
structure CapturedBody where
  content : List Nat
  size_bytes : Nat
  truncated : Bool
  encoding : String
deriving Repr, DecidableEq

/-- The literal truncation marker `"\n\n[... truncated {n} bytes ...]"`
appended by `_truncate_body`. -/
def truncMarker (n : Nat) : List Nat :=
  strToCodes "\n\n[... truncated " ++ strToCodes (toString n) ++ strToCodes " bytes ...]"

/-- The `try: content = captured_body.decode("utf-8") ... except
UnicodeDecodeError: content = base64.b64encode(...)` block of
`_truncate_body`: content string (as code points) and encoding tag. -/
def encodeContent (bs : List Nat) : List Nat × String :=
  match utf8Decode bs with
  | some s => (s, "utf-8")
  | none => (base64Encode bs, "base64")

/-- Model of `_truncate_body(body, max_size_kb)` from `otel_fastapi.py` (lines 51–87). -/
def truncate_body (body : List Nat) (max_size_kb : Nat) : CapturedBody :=
  let max_bytes := max_size_kb * 1024
  let size_bytes := body.length
  let truncated : Bool := decide (size_bytes > max_bytes)
  let captured_body := if truncated then body.take max_bytes else body
  let ce := encodeContent captured_body
  let content := if truncated then ce.1 ++ truncMarker (size_bytes - max_bytes) else ce.1
  { content := content, size_bytes := size_bytes, truncated := truncated, encoding := ce.2 }

/-! ### `OtelCaptureConfig` -/

/-- Configuration record `OtelCaptureConfig`: capture toggle, body cap in KiB, excluded path
prefixes (paths as character lists). -/
structure OtelCaptureConfig where
  enabled : Bool
  max_body_size_kb : Nat
  excluded_paths : List (List Char)
deriving Repr, DecidableEq

/-- Python `str.strip` (drop whitespace at both ends). -/
def pyStrip (s : List Char) : List Char :=
  ((s.dropWhile Char.isWhitespace).reverse.dropWhile Char.isWhitespace).reverse

/-- Python `str.split(",")`: split on every comma, keeping empty pieces
(so `"".split(",") == [""]`). -/
def splitOnComma : List Char → List (List Char)
  | [] => [[]]
  | c :: rest =>
    let ps := splitOnComma rest
    if c = ',' then [] :: ps
    else (c :: ps.headD []) :: ps.tail

/-- The `excluded_paths` computation of `OtelCaptureConfig.__init__`
(lines 31–34): split the raw environment value on commas and strip each piece. -/
def parse_excluded_paths (raw : List Char) : List (List Char) :=
  (splitOnComma raw).map pyStrip


/-- C5: for every body within the cap, `_truncate_body` reports
`truncated=false`, the exact byte count, and content that round-trips to the
original bytes under the reported encoding. -/
theorem truncate_body_small_roundtrip (body : List Nat) (max_size_kb : Nat)
    (h256 : ∀ x ∈ body, x < 256)
    (hlen : body.length ≤ max_size_kb * 1024) :
    (truncate_body body max_size_kb).truncated = false ∧
    (truncate_body body max_size_kb).size_bytes = body.length ∧
    ((truncate_body body max_size_kb).encoding = "utf-8" →
      utf8Encode (truncate_body body max_size_kb).content = body) ∧
    ((truncate_body body max_size_kb).encoding = "base64" →
      base64Decode (truncate_body body max_size_kb).content = some body) := by
  have ht : decide (body.length > max_size_kb * 1024) = false := by
    simp only [decide_eq_false_iff_not, not_lt, gt_iff_lt]
    omega
  cases hdec : utf8Decode body with
  | some s =>
    simp only [truncate_body, encodeContent, hdec, ht, Bool.false_eq_true, if_false]
    refine ⟨by trivial, by trivial, fun _ => utf8Decode_encode hdec, fun hcontra => ?_⟩
    simp at hcontra
  | none =>
    simp only [truncate_body, encodeContent, hdec, ht, Bool.false_eq_true, if_false]
    refine ⟨by trivial, by trivial, fun hcontra => ?_, fun _ => base64Decode_encode h256⟩
    simp at hcontra

/-- C5 witness: a concrete in-cap body (`"hi"` with a 1 KiB cap) hits the
hypotheses and the round-trip conclusion of `truncate_body_small_roundtrip`. -/
theorem truncate_body_small_roundtrip_witness :
    (truncate_body [104, 105] 1).truncated = false ∧
    (truncate_body [104, 105] 1).size_bytes = 2 ∧
    ((truncate_body [104, 105] 1).encoding = "utf-8" →
      utf8Encode (truncate_body [104, 105] 1).content = [104, 105]) ∧
    ((truncate_body [104, 105] 1).encoding = "base64" →
      base64Decode (truncate_body [104, 105] 1).content = some [104, 105]) :=
  truncate_body_small_roundtrip [104, 105] 1 (by decide) (by decide)

/-- C6: for every body over the cap, `_truncate_body` reports
`truncated=true`, the content is the encoding of exactly the first
`max_bytes` bytes followed by the marker naming exactly the omitted byte
count; with `max_size_kb = 0` everything before the marker is dropped. -/
theorem truncate_body_truncates (body : List Nat) (max_size_kb : Nat)
    (hlen : max_size_kb * 1024 < body.length) :
    (truncate_body body max_size_kb).truncated = true ∧
    (∃ pre,
      (truncate_body body max_size_kb).content =
        pre ++ truncMarker (body.length - max_size_kb * 1024) ∧
      (((truncate_body body max_size_kb).encoding = "utf-8" ∧
          utf8Decode (body.take (max_size_kb * 1024)) = some pre) ∨
        ((truncate_body body max_size_kb).encoding = "base64" ∧
          pre = base64Encode (body.take (max_size_kb * 1024))))) ∧
    (max_size_kb = 0 →
      (truncate_body body max_size_kb).content = truncMarker body.length) := by
  have ht : decide (body.length > max_size_kb * 1024) = true := by
    simp only [decide_eq_true_eq, gt_iff_lt]
    omega
  cases hdec : utf8Decode (body.take (max_size_kb * 1024)) with
  | some s =>
    simp only [truncate_body, encodeContent, hdec, ht, if_true]
    refine ⟨by trivial, ⟨s, by trivial, Or.inl ⟨by trivial, by trivial⟩⟩, fun h0 => ?_⟩
    subst h0
    simp only [Nat.zero_mul, List.take_zero] at hdec
    have hs : s = [] := by
      simp only [utf8Decode, utf8DecodeAux, Option.some.injEq] at hdec
      exact hdec.symm
    subst hs
    simp
  | none =>
    simp only [truncate_body, encodeContent, hdec, ht, if_true]
    refine ⟨by trivial, ⟨base64Encode (body.take (max_size_kb * 1024)), by trivial,
      Or.inr ⟨by trivial, by trivial⟩⟩, fun h0 => ?_⟩
    subst h0
    simp only [Nat.zero_mul, List.take_zero] at hdec
    simp [utf8Decode, utf8DecodeAux] at hdec

/-- C6 witness: a 3-byte body with `max_size_kb = 0` satisfies the
hypothesis of `truncate_body_truncates`; everything is dropped before the
marker. -/
theorem truncate_body_truncates_witness :
    (truncate_body [104, 105, 106] 0).truncated = true ∧
    (∃ pre,
      (truncate_body [104, 105, 106] 0).content = pre ++ truncMarker 3 ∧
      (((truncate_body [104, 105, 106] 0).encoding = "utf-8" ∧
          utf8Decode (List.take 0 [104, 105, 106]) = some pre) ∨
        ((truncate_body [104, 105, 106] 0).encoding = "base64" ∧
          pre = base64Encode (List.take 0 [104, 105, 106])))) ∧
    (0 = 0 → (truncate_body [104, 105, 106] 0).content = truncMarker 3) :=
  truncate_body_truncates [104, 105, 106] 0 (by decide)


/-! ### JSON, modelling the fragment of Python `json.loads` the middleware
relies on: objects, arrays, strings (with the single-character escapes),
integers, `true`/`false`/`null` and whitespace.  (`\\uXXXX` escapes and
float syntax are outside the modelled fragment.) -/

inductive JsonVal where
  | null
  | bool (b : Bool)
  | num (n : Int)
  | str (s : List Nat)
  | arr (xs : List JsonVal)
  | obj (fields : List (List Nat × JsonVal))
deriving Repr, BEq, Inhabited

/-- JSON whitespace (space, tab, linefeed, carriage return). -/
def isWsCode (c : Nat) : Bool := c = 32 || c = 9 || c = 10 || c = 13

def skipWs (s : List Nat) : List Nat := s.dropWhile (fun c => isWsCode c)

/-- Single-character JSON string escapes. -/
def escMap (c : Nat) : Option Nat :=
  if c = 34 then some 34 else if c = 92 then some 92 else if c = 47 then some 47
  else if c = 98 then some 8 else if c = 102 then some 12 else if c = 110 then some 10
  else if c = 114 then some 13 else if c = 116 then some 9 else none

/-- Parse the remainder of a JSON string (opening quote already consumed):
returns the decoded code points and the input after the closing quote. -/
def parseStrAux : Nat → List Nat → Option (List Nat × List Nat)
  | _, [] => none
  | 0, _ :: _ => none
  | fuel + 1, c :: rest =>
    if c = 34 then some ([], rest)
    else if c = 92 then
      if 1 ≤ rest.length then
        (escMap (rest.getD 0 0)).bind fun e =>
          (parseStrAux fuel (rest.drop 1)).map fun pr => (e :: pr.1, pr.2)
      else none
    else if 32 ≤ c then
      (parseStrAux fuel rest).map fun pr => (c :: pr.1, pr.2)
    else none

/-- Consume leading decimal digits, accumulating their value. -/
def parseNatAux : Nat → List Nat → Nat → Nat × List Nat
  | _, [], acc => (acc, [])
  | 0, s, acc => (acc, s)
  | fuel + 1, c :: rest, acc =>
    if 48 ≤ c ∧ c ≤ 57 then parseNatAux fuel rest (acc * 10 + (c - 48))
    else (acc, c :: rest)

/-- Projection helpers used to thread results through the single-function
parser below. -/
def asArr : JsonVal → List JsonVal
  | .arr xs => xs
  | _ => []

def asObj : JsonVal → List (List Nat × JsonVal)
  | .obj fs => fs
  | _ => []

/-- Recursive-descent JSON parser over code points, fuel-driven.
`mode = 0` parses one value; `mode = 1` parses the items of an array after
`[` (at least one, returning `.arr items`); `mode = 2` parses the members of
an object after `{` (at least one, returning `.obj fields`). -/
def parseJ : Nat → Nat → List Nat → Option (JsonVal × List Nat)
  | 0, _, _ => none
  | fuel + 1, mode, s =>
    if mode = 0 then
      let t := skipWs s
      if t.length = 0 then none
      else
        let c := t.getD 0 0
        let rest := t.drop 1
        if c = 110 then
          if rest.take 3 = [117, 108, 108] then some (.null, rest.drop 3) else none
        else if c = 116 then
          if rest.take 3 = [114, 117, 101] then some (.bool true, rest.drop 3) else none
        else if c = 102 then
          if rest.take 4 = [97, 108, 115, 101] then some (.bool false, rest.drop 4) else none
        else if c = 34 then
          (parseStrAux (rest.length + 1) rest).map fun pr => (.str pr.1, pr.2)
        else if c = 45 then
          if 1 ≤ rest.length ∧ 48 ≤ rest.getD 0 0 ∧ rest.getD 0 0 ≤ 57 then
            let pr := parseNatAux (rest.length + 1) rest 0
            some (.num (-(pr.1 : Int)), pr.2)
          else none
        else if 48 ≤ c ∧ c ≤ 57 then
          let pr := parseNatAux (rest.length + 1) rest (c - 48)
          some (.num (pr.1 : Int), pr.2)
        else if c = 91 then
          let rest' := skipWs rest
          if 1 ≤ rest'.length ∧ rest'.getD 0 0 = 93 then some (.arr [], rest'.drop 1)
          else parseJ fuel 1 rest
        else if c = 123 then
          let rest' := skipWs rest
          if 1 ≤ rest'.length ∧ rest'.getD 0 0 = 125 then some (.obj [], rest'.drop 1)
          else parseJ fuel 2 rest
        else none
    else if mode = 1 then
      (parseJ fuel 0 s).bind fun pr =>
        let rest := skipWs pr.2
        if 1 ≤ rest.length ∧ rest.getD 0 0 = 44 then
          (parseJ fuel 1 (rest.drop 1)).map fun pr2 => (.arr (pr.1 :: asArr pr2.1), pr2.2)
        else if 1 ≤ rest.length ∧ rest.getD 0 0 = 93 then
          some (.arr [pr.1], rest.drop 1)
        else none
    else if mode = 2 then
      let t := skipWs s
      if 1 ≤ t.length ∧ t.getD 0 0 = 34 then
        (parseStrAux t.length (t.drop 1)).bind fun kr =>
          let rest := skipWs kr.2
          if 1 ≤ rest.length ∧ rest.getD 0 0 = 58 then
            (parseJ fuel 0 (rest.drop 1)).bind fun pr =>
              let rest2 := skipWs pr.2
              if 1 ≤ rest2.length ∧ rest2.getD 0 0 = 44 then
                (parseJ fuel 2 (rest2.drop 1)).map fun pr2 =>
                  (.obj ((kr.1, pr.1) :: asObj pr2.1), pr2.2)
              else if 1 ≤ rest2.length ∧ rest2.getD 0 0 = 125 then
                some (.obj [(kr.1, pr.1)], rest2.drop 1)
              else none
          else none
      else none
    else none

/-- Model of `json.loads`: parse one JSON value and require only trailing whitespace. -/
def jsonLoads (s : List Nat) : Option JsonVal :=
  (parseJ (2 * s.length + 2) 0 s).bind fun pr =>
    if skipWs pr.2 = [] then some pr.1 else none

/-- Python-dict key lookup on parsed object fields: later duplicate keys
overwrite earlier ones, as in `json.loads`. -/
def pyDictLookup (k : List Nat) (fields : List (List Nat × JsonVal)) : Option JsonVal :=
  (fields.reverse.find? (fun f => f.1 == k)).map (fun f => f.2)


/-! ### The attribute records built by `_set_span_attributes` -/

/-- Lookup in a built attribute record (assoc list with `String` keys). -/
def recLookup (k : String) (fields : List (String × JsonVal)) : Option JsonVal :=
  (fields.find? (fun f => f.1 == k)).map (fun f => f.2)

/-- The `error` entry added to `output_data` for 4xx/5xx responses
(`_set_span_attributes` lines 222–229): decode the joined response body as
UTF-8, parse it as JSON, and when the result is an object with key
`"detail"` add the parsed value of that key under `"error"`.  Every failure —
`UnicodeDecodeError`, `JSONDecodeError`, and the `TypeError`/`KeyError`
Python raises when the parsed value is not a dict with that key — is
swallowed by the inner `except Exception: pass`, adding nothing. -/
def errorField (resp_body : List Nat) : List (String × JsonVal) :=
  ((utf8Decode resp_body).bind (fun s => jsonLoads s)).elim []
    (fun v => (pyDictLookup (strToCodes "detail") (asObj v)).elim []
      (fun d => [("error", d)]))

/-- The `input_data` dict built by `_set_span_attributes` (lines 199–208),
in insertion order. -/
def build_input_data (method : String) (path : List Char) (cfg : OtelCaptureConfig)
    (request_body_parts : List (List Nat)) : List (String × JsonVal) :=
  let base := [("method", JsonVal.str (strToCodes method)),
               ("path", JsonVal.str (path.map Char.toNat))]
  if request_body_parts = [] then base
  else
    let req_body := request_body_parts.flatten
    let t := truncate_body req_body cfg.max_body_size_kb
    base ++ [("body", JsonVal.str t.content), ("body_size", JsonVal.num (t.size_bytes : Int))]

/-- The `output_data` dict built by `_set_span_attributes` (lines 212–231),
in insertion order. -/
def build_output_data (cfg : OtelCaptureConfig) (response_status : Nat)
    (response_body_parts : List (List Nat)) : List (String × JsonVal) :=
  let base := [("status", JsonVal.num (response_status : Int))]
  if response_body_parts = [] then base
  else
    let resp_body := response_body_parts.flatten
    let t := truncate_body resp_body cfg.max_body_size_kb
    base ++ [("body", JsonVal.str t.content), ("body_size", JsonVal.num (t.size_bytes : Int))] ++
      (if t.truncated then [("truncated", JsonVal.bool true)] else []) ++
      (if 400 ≤ response_status then errorField resp_body else [])


/-- C8: for a committed exchange with status in [400,599] and a non-empty
response body that does not parse as a JSON object, no `error` entry is
added, while `body` (the possibly-truncated content) and `body_size` (the
original byte count) are still present. -/
theorem output_nonjson_no_error (cfg : OtelCaptureConfig) (response_status : Nat)
    (response_body_parts : List (List Nat))
    (hne : response_body_parts ≠ [])
    (h400 : 400 ≤ response_status) (h599 : response_status ≤ 599)
    (hnotobj : ∀ s fields, utf8Decode response_body_parts.flatten = some s →
      jsonLoads s ≠ some (JsonVal.obj fields)) :
    recLookup "error" (build_output_data cfg response_status response_body_parts) = none ∧
    recLookup "body" (build_output_data cfg response_status response_body_parts) =
      some (JsonVal.str
        (truncate_body response_body_parts.flatten cfg.max_body_size_kb).content) ∧
    recLookup "body_size" (build_output_data cfg response_status response_body_parts) =
      some (JsonVal.num (response_body_parts.flatten.length : Int)) := by
  have herr : errorField response_body_parts.flatten = [] := by
    unfold errorField
    cases hb : (utf8Decode response_body_parts.flatten).bind (fun s => jsonLoads s) with
    | none => rfl
    | some v =>
      rw [Option.bind_eq_some] at hb
      obtain ⟨s, hdec, hjson⟩ := hb
      cases v with
      | obj fields => exact absurd hjson (hnotobj s fields hdec)
      | null => rfl
      | bool b => rfl
      | num n => rfl
      | str s2 => rfl
      | arr xs => rfl
  have hsz : (truncate_body response_body_parts.flatten cfg.max_body_size_kb).size_bytes =
      response_body_parts.flatten.length := rfl
  cases htr : (truncate_body response_body_parts.flatten cfg.max_body_size_kb).truncated <;>
    simp [build_output_data, hne, htr, herr, hsz, recLookup, h400]

/-- C8 witness: a 500 response whose body `"oops"` is not JSON satisfies the
hypotheses of `output_nonjson_no_error`. -/
theorem output_nonjson_no_error_witness :
    recLookup "error" (build_output_data ⟨true, 10, []⟩ 500 [strToCodes "oops"]) = none ∧
    recLookup "body" (build_output_data ⟨true, 10, []⟩ 500 [strToCodes "oops"]) =
      some (JsonVal.str (truncate_body (List.flatten [strToCodes "oops"]) 10).content) ∧
    recLookup "body_size" (build_output_data ⟨true, 10, []⟩ 500 [strToCodes "oops"]) =
      some (JsonVal.num ((List.flatten [strToCodes "oops"]).length : Int)) :=
  output_nonjson_no_error ⟨true, 10, []⟩ 500 [strToCodes "oops"]
    (by decide) (by decide) (by decide)
    (fun s fields hs hj => by
      rw [show utf8Decode (List.flatten [strToCodes "oops"]) = some (strToCodes "oops")
        from rfl] at hs
      cases hs
      rw [show jsonLoads (strToCodes "oops") = none from rfl] at hj
      exact Option.noConfusion hj)

/-- C7 counterexample: a 404 response whose body is the JSON object
`{"message":"oops"}` (no `"detail"` key).  The claim asserts the `error`
field of `output.value` equals the stringified `"message"` value `"oops"`;
the code consults only `"detail"`, so no `error` entry exists at all. -/
theorem error_field_message_fallback_counterexample :
    jsonLoads (strToCodes "\x7b\"message\":\"oops\"\x7d") =
      some (JsonVal.obj [(strToCodes "message", JsonVal.str (strToCodes "oops"))]) ∧
    recLookup "error" (build_output_data ⟨true, 10, []⟩ 404
      [strToCodes "\x7b\"message\":\"oops\"\x7d"]) = none ∧
    recLookup "error" (build_output_data ⟨true, 10, []⟩ 404
        [strToCodes "\x7b\"message\":\"oops\"\x7d"]) ≠
      some (JsonVal.str (strToCodes "oops")) :=
  ⟨rfl, rfl, by
    rw [show recLookup "error" (build_output_data ⟨true, 10, []⟩ 404
      [strToCodes "\x7b\"message\":\"oops\"\x7d"]) = none from rfl]
    simp⟩

/-- C7 amended: for a committed exchange with status ≥ 400 whose non-empty
response body decodes as UTF-8 and parses as a JSON object, the `error`
field of `output.value` is exactly the parsed value of the `"detail"` key
when present (verbatim, not stringified) and absent otherwise; the
`"message"` key is never consulted. -/
theorem error_field_detail_only (cfg : OtelCaptureConfig) (status : Nat)
    (parts : List (List Nat)) (s : List Nat) (fields : List (List Nat × JsonVal))
    (hne : parts ≠ []) (h400 : 400 ≤ status)
    (hdec : utf8Decode parts.flatten = some s)
    (hjson : jsonLoads s = some (JsonVal.obj fields)) :
    recLookup "error" (build_output_data cfg status parts) =
      pyDictLookup (strToCodes "detail") fields := by
  have herr : errorField parts.flatten =
      (pyDictLookup (strToCodes "detail") fields).elim []
        (fun d => [("error", d)]) := by
    unfold errorField
    rw [hdec, Option.some_bind', hjson]
    rfl
  cases hdl : pyDictLookup (strToCodes "detail") fields <;>
    rw [hdl] at herr <;>
    simp only [Option.elim_none, Option.elim_some] at herr <;>
    cases htr : (truncate_body parts.flatten cfg.max_body_size_kb).truncated <;>
      simp [build_output_data, hne, htr, herr, recLookup, h400, hdl]

/-- C7 amended witness: a 404 response with body `{"detail":5}` hits the
hypotheses of `error_field_detail_only`; the error entry is the raw JSON
number 5, not a string. -/
theorem error_field_detail_only_witness :
    recLookup "error" (build_output_data ⟨true, 10, []⟩ 404
        [strToCodes "\x7b\"detail\":5\x7d"]) =
      pyDictLookup (strToCodes "detail") [(strToCodes "detail", JsonVal.num 5)] :=
  error_field_detail_only ⟨true, 10, []⟩ 404 [strToCodes "\x7b\"detail\":5\x7d"]
    (strToCodes "\x7b\"detail\":5\x7d") [(strToCodes "detail", JsonVal.num 5)]
    (by decide) (by decide) rfl rfl


/-! ### The ASGI capture middleware as an event-trace machine -/

/-- An ASGI message (dict): `type` plus the keys the middleware reads, with
the defaults used by `message.get(...)` in the source. -/
structure Msg where
  type : String
  status : Nat := 0
  body : List Nat := []
  more_body : Bool := false
deriving Repr, DecidableEq

/-- The fields of an ASGI HTTP `scope` dict the middleware reads. -/
structure Scope where
  type : String
  path : List Char
  method : String
deriving Repr, DecidableEq

/-- Per-exchange state of the middleware closure (`request_body_parts`,
`response_status`, `response_body_parts`). -/
structure ExState where
  request_body_parts : List (List Nat)
  response_status : Nat
  response_body_parts : List (List Nat)
deriving Repr, DecidableEq

/-- One call the wrapped app makes to the callables it was given. -/
inductive AppCall where
  | recv
  | send (m : Msg)
deriving Repr, DecidableEq

/-- One possible behaviour of the external tracer during one commit:
whether `trace.get_current_span()` raises, whether a span is present and
recording (`not span or not span.is_recording()` collapsed to one flag), and
whether each `span.set_attribute` call raises. -/
structure SpanBehavior where
  lookupRaises : Bool
  recording : Bool
  setInputRaises : Bool
  setOutputRaises : Bool
deriving Repr, DecidableEq

/-- A performed span-attribute write: attribute name and the JSON record
serialized into it (`json.dumps` is modelled by the record itself). -/
abbrev AttrWrite := String × List (String × JsonVal)

/-- The `try` block of `_set_span_attributes` (lines 192–231): the attribute
writes that completed, paired with `true` when an exception escaped the
block (to be swallowed by the enclosing `except`).  A raising
`set_attribute` call records no write. -/
def set_span_attributes_try (sb : SpanBehavior) (scope : Scope) (path : List Char)
    (cfg : OtelCaptureConfig) (request_body_parts : List (List Nat))
    (response_status : Nat) (response_body_parts : List (List Nat)) :
    List AttrWrite × Bool :=
  if sb.lookupRaises then ([], true)
  else if sb.recording = false then ([], false)
  else if sb.setInputRaises then ([], true)
  else if sb.setOutputRaises then
    ([("input.value", build_input_data scope.method path cfg request_body_parts)], true)
  else
    ([("input.value", build_input_data scope.method path cfg request_body_parts),
      ("output.value", build_output_data cfg response_status response_body_parts)], false)

/-- Model of `_set_span_attributes` (lines 183–233): the `try` block wrapped in
`except Exception: pass` — completed writes are kept, any error is
discarded, nothing propagates. -/
def set_span_attributes (sb : SpanBehavior) (scope : Scope) (path : List Char)
    (cfg : OtelCaptureConfig) (request_body_parts : List (List Nat))
    (response_status : Nat) (response_body_parts : List (List Nat)) : List AttrWrite :=
  (set_span_attributes_try sb scope path cfg request_body_parts response_status
    response_body_parts).1

/-- Observable events of one captured exchange, in order. -/
inductive Event where
  | underlyingRecv (m : Msg)
  | deliveredToApp (m : Msg)
  | commit (writes : List AttrWrite)
  | forwarded (m : Msg)
deriving Repr

/-- Model of `receive_wrapper` (lines 138–144): append any non-empty `http.request`
body chunk to the request accumulator, return the message unchanged. -/
def receive_wrapper (st : ExState) (m : Msg) : ExState × Msg :=
  if m.type = "http.request" ∧ m.body ≠ [] then
    ({ st with request_body_parts := st.request_body_parts ++ [m.body] }, m)
  else (st, m)

/-- Model of `send_wrapper` (lines 150–176): record the status of
`http.response.start`; accumulate non-empty `http.response.body` chunks; on
the final chunk run the commit step and only then forward; forward every
message unchanged. -/
def send_wrapper (sb : SpanBehavior) (scope : Scope) (path : List Char)
    (cfg : OtelCaptureConfig) (st : ExState) (m : Msg) : ExState × List Event :=
  if m.type = "http.response.start" then
    ({ st with response_status := m.status }, [Event.forwarded m])
  else if m.type = "http.response.body" then
    let st' := if m.body ≠ [] then
        { st with response_body_parts := st.response_body_parts ++ [m.body] }
      else st
    if m.more_body then (st', [Event.forwarded m])
    else
      (st', [Event.commit (set_span_attributes sb scope path cfg st'.request_body_parts
        st'.response_status st'.response_body_parts), Event.forwarded m])
  else (st, [Event.forwarded m])

/-- Drive one captured exchange: the wrapped app issues `calls` in order;
the underlying `receive` yields `ins` in order (a `receive` past the end of
`ins` suspends forever, producing no further events). -/
def runApp (sb : SpanBehavior) (scope : Scope) (path : List Char)
    (cfg : OtelCaptureConfig) : List AppCall → List Msg → ExState → List Event
  | [], _, _ => []
  | AppCall.recv :: _, [], _ => []
  | AppCall.recv :: calls, m :: ins, st =>
    Event.underlyingRecv m :: Event.deliveredToApp (receive_wrapper st m).2 ::
      runApp sb scope path cfg calls ins (receive_wrapper st m).1
  | AppCall.send m :: calls, ins, st =>
    (send_wrapper sb scope path cfg st m).2 ++
      runApp sb scope path cfg calls ins (send_wrapper sb scope path cfg st m).1

/-- Result of one exchange: pure passthrough (the app was invoked with the
original `receive`/`send` callables) or a captured run with its trace. -/
inductive MWResult where
  | passthrough
  | captured (trace : List Event)
deriving Repr

/-- The `middleware` closure built by `_build_otel_capture_app` (lines
124–178): early exit to passthrough for non-HTTP scopes, disabled capture,
or a path starting with an excluded prefix; otherwise run the exchange with
the wrapping callbacks and fresh accumulators. -/
def middleware (sb : SpanBehavior) (cfg : OtelCaptureConfig) (scope : Scope)
    (calls : List AppCall) (ins : List Msg) : MWResult :=
  if scope.type ≠ "http" ∨ cfg.enabled = false then MWResult.passthrough
  else if cfg.excluded_paths.any (fun exc => exc.isPrefixOf scope.path) then
    MWResult.passthrough
  else
    MWResult.captured (runApp sb scope scope.path cfg calls ins ⟨[], 0, []⟩)

/-- Messages the app passed to the wrapped `send`, in order. -/
def sentMsgs (calls : List AppCall) : List Msg :=
  calls.filterMap (fun c => match c with
    | AppCall.send m => some m
    | AppCall.recv => none)

/-- Number of `receive` calls the app makes. -/
def recvCount : List AppCall → Nat
  | [] => 0
  | AppCall.recv :: calls => recvCount calls + 1
  | AppCall.send _ :: calls => recvCount calls

/-- Messages forwarded to the underlying `send`, in order. -/
def forwardedMsgs (tr : List Event) : List Msg :=
  tr.filterMap (fun e => match e with
    | Event.forwarded m => some m
    | _ => none)

/-- Messages the wrapped `receive` returned to the app, in order. -/
def deliveredMsgs (tr : List Event) : List Msg :=
  tr.filterMap (fun e => match e with
    | Event.deliveredToApp m => some m
    | _ => none)

/-- Messages produced by the underlying `receive`, in order. -/
def consumedMsgs (tr : List Event) : List Msg :=
  tr.filterMap (fun e => match e with
    | Event.underlyingRecv m => some m
    | _ => none)

/-- All span-attribute writes performed during a trace. -/
def commitWrites (tr : List Event) : List AttrWrite :=
  tr.flatMap (fun e => match e with
    | Event.commit ws => ws
    | _ => [])

/-- Span-attribute writes of one exchange result. -/
def resultWrites : MWResult → List AttrWrite
  | MWResult.passthrough => []
  | MWResult.captured tr => commitWrites tr


/-! ### Helper lemmas about the wrappers -/

theorem receive_wrapper_snd (st : ExState) (m : Msg) : (receive_wrapper st m).2 = m := by
  unfold receive_wrapper
  split <;> rfl

theorem receive_wrapper_resp_parts (st : ExState) (m : Msg) :
    (receive_wrapper st m).1.response_body_parts = st.response_body_parts := by
  unfold receive_wrapper
  split <;> rfl

theorem send_wrapper_events_shape (sb : SpanBehavior) (scope : Scope) (path : List Char)
    (cfg : OtelCaptureConfig) (st : ExState) (m : Msg) :
    (m.type = "http.response.body" ∧ m.more_body = false →
      ∃ w, (send_wrapper sb scope path cfg st m).2 = [Event.commit w, Event.forwarded m]) ∧
    (¬ (m.type = "http.response.body" ∧ m.more_body = false) →
      (send_wrapper sb scope path cfg st m).2 = [Event.forwarded m]) := by
  constructor
  · rintro ⟨hty, hmb⟩
    unfold send_wrapper
    rw [hty, hmb]
    simp
  · intro hnc
    unfold send_wrapper
    by_cases h1 : m.type = "http.response.start"
    · rw [if_pos h1]
    · rw [if_neg h1]
      by_cases h2 : m.type = "http.response.body"
      · rw [if_pos h2]
        have h3 : m.more_body = true := by
          cases hm3 : m.more_body
          · exact absurd ⟨h2, hm3⟩ hnc
          · rfl
        rw [h3]
        simp
      · rw [if_neg h2]

theorem send_wrapper_resp_parts_empty (sb : SpanBehavior) (scope : Scope) (path : List Char)
    (cfg : OtelCaptureConfig) (st : ExState) (m : Msg) (hb : m.body = []) :
    (send_wrapper sb scope path cfg st m).1.response_body_parts = st.response_body_parts := by
  unfold send_wrapper
  by_cases h1 : m.type = "http.response.start"
  · rw [if_pos h1]
  · rw [if_neg h1]
    by_cases h2 : m.type = "http.response.body"
    · rw [if_pos h2]
      cases hm3 : m.more_body <;> simp [hb, hm3]
    · rw [if_neg h2]

theorem set_span_attributes_output_mem (sb : SpanBehavior) (scope : Scope)
    (path : List Char) (cfg : OtelCaptureConfig) (reqP : List (List Nat)) (status : Nat)
    (respP : List (List Nat)) (rec : List (String × JsonVal)) :
    ("output.value", rec) ∈ set_span_attributes sb scope path cfg reqP status respP →
    rec = build_output_data cfg status respP := by
  unfold set_span_attributes set_span_attributes_try
  by_cases f1 : sb.lookupRaises
  · rw [if_pos f1]; intro h; simp at h
  · rw [if_neg f1]
    by_cases f2 : sb.recording = false
    · rw [if_pos f2]; intro h; simp at h
    · rw [if_neg f2]
      by_cases f3 : sb.setInputRaises
      · rw [if_pos f3]; intro h; simp at h
      · rw [if_neg f3]
        by_cases f4 : sb.setOutputRaises
        · rw [if_pos f4]; intro h; simp at h
        · rw [if_neg f4]; intro h; simp at h; exact h

theorem send_wrapper_commit_mem (sb : SpanBehavior) (scope : Scope) (path : List Char)
    (cfg : OtelCaptureConfig) (st : ExState) (m : Msg) (ws : List AttrWrite) :
    Event.commit ws ∈ (send_wrapper sb scope path cfg st m).2 →
    ws = set_span_attributes sb scope path cfg
      (send_wrapper sb scope path cfg st m).1.request_body_parts
      (send_wrapper sb scope path cfg st m).1.response_status
      (send_wrapper sb scope path cfg st m).1.response_body_parts := by
  unfold send_wrapper
  by_cases h1 : m.type = "http.response.start"
  · rw [if_pos h1]; intro h; simp at h
  · rw [if_neg h1]
    by_cases h2 : m.type = "http.response.body"
    · rw [if_pos h2]
      cases hm3 : m.more_body
      · intro h
        simp at h ⊢
        exact h
      · intro h; simp at h
    · rw [if_neg h2]; intro h; simp at h

/-- C3: the commit step never lets an error escape.  For every tracer
behaviour — span lookup raising, span absent or not recording, or either
`set_attribute` call raising — `send_wrapper` still forwards the message
unchanged as its final action, and the writes that did complete are a prefix
of the two intended `input.value`/`output.value` writes. -/
theorem commit_never_propagates (sb : SpanBehavior) (scope : Scope) (path : List Char)
    (cfg : OtelCaptureConfig) (st : ExState) (m : Msg) :
    (send_wrapper sb scope path cfg st m).2.getLast? = some (Event.forwarded m) ∧
    set_span_attributes sb scope path cfg st.request_body_parts st.response_status
        st.response_body_parts <+:
      [("input.value", build_input_data scope.method path cfg st.request_body_parts),
       ("output.value", build_output_data cfg st.response_status st.response_body_parts)] := by
  constructor
  · obtain ⟨hfin, hnotfin⟩ := send_wrapper_events_shape sb scope path cfg st m
    by_cases hc : m.type = "http.response.body" ∧ m.more_body = false
    · obtain ⟨w, hw⟩ := hfin hc
      rw [hw]
      rfl
    · rw [hnotfin hc]
      rfl
  · unfold set_span_attributes set_span_attributes_try
    by_cases f1 : sb.lookupRaises
    · rw [if_pos f1]; exact List.nil_prefix
    · rw [if_neg f1]
      by_cases f2 : sb.recording = false
      · rw [if_pos f2]; exact List.nil_prefix
      · rw [if_neg f2]
        by_cases f3 : sb.setInputRaises
        · rw [if_pos f3]; exact List.nil_prefix
        · rw [if_neg f3]
          by_cases f4 : sb.setOutputRaises
          · rw [if_pos f4]
            exact ⟨[("output.value",
              build_output_data cfg st.response_status st.response_body_parts)], rfl⟩
          · rw [if_neg f4]

/-- C4: a non-HTTP scope, disabled capture, or a path starting with an
excluded prefix makes the middleware call the wrapped app directly with the
original callables — pure passthrough, zero span-attribute writes. -/
theorem early_exit_passthrough (sb : SpanBehavior) (cfg : OtelCaptureConfig) (scope : Scope)
    (calls : List AppCall) (ins : List Msg)
    (h : scope.type ≠ "http" ∨ cfg.enabled = false ∨
      ∃ exc ∈ cfg.excluded_paths, exc.isPrefixOf scope.path = true) :
    middleware sb cfg scope calls ins = MWResult.passthrough ∧
    resultWrites (middleware sb cfg scope calls ins) = [] := by
  have hpt : middleware sb cfg scope calls ins = MWResult.passthrough := by
    unfold middleware
    rcases h with h | h | ⟨exc, hmem, hpre⟩
    · rw [if_pos (Or.inl h)]
    · rw [if_pos (Or.inr h)]
    · by_cases h0 : scope.type ≠ "http" ∨ cfg.enabled = false
      · rw [if_pos h0]
      · rw [if_neg h0, if_pos (List.any_eq_true.mpr ⟨exc, hmem, hpre⟩)]
  exact ⟨hpt, by rw [hpt]; rfl⟩

/-- C4 witness: `GET /health` with the default exclusions is passthrough. -/
theorem early_exit_passthrough_witness :
    middleware ⟨false, true, false, false⟩
        ⟨true, 10, ["/health".data, "/docs".data, "/redoc".data]⟩
        ⟨"http", "/health".data, "GET"⟩ [] [] = MWResult.passthrough ∧
    resultWrites (middleware ⟨false, true, false, false⟩
        ⟨true, 10, ["/health".data, "/docs".data, "/redoc".data]⟩
        ⟨"http", "/health".data, "GET"⟩ [] []) = [] :=
  early_exit_passthrough ⟨false, true, false, false⟩
    ⟨true, 10, ["/health".data, "/docs".data, "/redoc".data]⟩
    ⟨"http", "/health".data, "GET"⟩ [] []
    (Or.inr (Or.inr ⟨"/health".data, by decide, by decide⟩))

/-- C10: an excluded-paths list containing the empty string (as produced by
splitting an empty raw setting) makes every path match, so every HTTP
exchange is passthrough and no attribute is written even though capture is
nominally enabled. -/
theorem empty_excluded_prefix_passthrough (sb : SpanBehavior) (cfg : OtelCaptureConfig)
    (scope : Scope) (calls : List AppCall) (ins : List Msg)
    (hmem : [] ∈ cfg.excluded_paths) (hen : cfg.enabled = true)
    (hhttp : scope.type = "http") :
    parse_excluded_paths [] = [[]] ∧
    middleware sb cfg scope calls ins = MWResult.passthrough ∧
    resultWrites (middleware sb cfg scope calls ins) = [] := by
  have hpt : middleware sb cfg scope calls ins = MWResult.passthrough := by
    unfold middleware
    rw [if_neg (by simp [hhttp, hen]),
      if_pos (List.any_eq_true.mpr ⟨[], hmem, by cases scope.path <;> rfl⟩)]
  exact ⟨rfl, hpt, by rw [hpt]; rfl⟩

/-- C10 witness: a configuration whose exclusion list is `[""]` with capture
enabled is passthrough for a concrete request to `/`. -/
theorem empty_excluded_prefix_passthrough_witness :
    parse_excluded_paths [] = [[]] ∧
    middleware ⟨false, true, false, false⟩ ⟨true, 10, [[]]⟩
        ⟨"http", "/".data, "GET"⟩ [] [] = MWResult.passthrough ∧
    resultWrites (middleware ⟨false, true, false, false⟩ ⟨true, 10, [[]]⟩
        ⟨"http", "/".data, "GET"⟩ [] []) = [] :=
  empty_excluded_prefix_passthrough ⟨false, true, false, false⟩ ⟨true, 10, [[]]⟩
    ⟨"http", "/".data, "GET"⟩ [] [] (by decide) rfl rfl


/-- C2: capture is observation-only.  In every captured run the messages the
wrapped `receive` returns to the app are exactly the messages the underlying
`receive` produced, the messages forwarded to the underlying `send` are
exactly the messages the app sent (same type, status, body bytes and
`more_body`), and nothing is dropped or reordered. -/
theorem capture_transparent (sb : SpanBehavior) (scope : Scope) (path : List Char)
    (cfg : OtelCaptureConfig) :
    ∀ (calls : List AppCall) (ins : List Msg) (st : ExState),
      recvCount calls ≤ ins.length →
      forwardedMsgs (runApp sb scope path cfg calls ins st) = sentMsgs calls ∧
      deliveredMsgs (runApp sb scope path cfg calls ins st) =
        consumedMsgs (runApp sb scope path cfg calls ins st) ∧
      consumedMsgs (runApp sb scope path cfg calls ins st) =
        ins.take (recvCount calls) := by
  intro calls
  induction calls with
  | nil =>
    intro ins st h
    simp [runApp, forwardedMsgs, sentMsgs, deliveredMsgs, consumedMsgs, recvCount]
  | cons c calls ih =>
    intro ins st h
    cases c with
    | recv =>
      cases ins with
      | nil => simp [recvCount] at h
      | cons m ins =>
        have h' : recvCount calls ≤ ins.length := by
          simp only [recvCount, List.length_cons] at h ⊢
          omega
        obtain ⟨h1, h2, h3⟩ := ih ins (receive_wrapper st m).1 h'
        simp only [forwardedMsgs, deliveredMsgs, consumedMsgs, sentMsgs] at h1 h2 h3
        simp [runApp, forwardedMsgs, deliveredMsgs, consumedMsgs, sentMsgs, recvCount,
          receive_wrapper_snd, h1, h2, h3, List.filterMap_cons]
    | send m =>
      have h' : recvCount calls ≤ ins.length := by
        simpa [recvCount] using h
      obtain ⟨h1, h2, h3⟩ := ih ins (send_wrapper sb scope path cfg st m).1 h'
      simp only [forwardedMsgs, deliveredMsgs, consumedMsgs, sentMsgs] at h1 h2 h3
      obtain hsh := send_wrapper_events_shape sb scope path cfg st m
      by_cases hc : m.type = "http.response.body" ∧ m.more_body = false
      · obtain ⟨w, hw⟩ := hsh.1 hc
        simp [runApp, hw, forwardedMsgs, deliveredMsgs, consumedMsgs, sentMsgs, recvCount,
          h1, h2, h3, List.filterMap_cons, List.filterMap_append]
      · have hw := hsh.2 hc
        simp [runApp, hw, forwardedMsgs, deliveredMsgs, consumedMsgs, sentMsgs, recvCount,
          h1, h2, h3, List.filterMap_cons, List.filterMap_append]

/-- C2 witness: a concrete exchange (one request chunk received, status and
final body sent) is delivered and forwarded verbatim. -/
theorem capture_transparent_witness :
    recvCount [AppCall.recv,
        AppCall.send { type := "http.response.start", status := 200 },
        AppCall.send { type := "http.response.body", body := [111] }] ≤
      [{ type := "http.request", body := [104] : Msg }].length ∧
    forwardedMsgs (runApp ⟨false, true, false, false⟩ ⟨"http", "/".data, "POST"⟩ "/".data
        ⟨true, 10, []⟩
        [AppCall.recv,
          AppCall.send { type := "http.response.start", status := 200 },
          AppCall.send { type := "http.response.body", body := [111] }]
        [{ type := "http.request", body := [104] }] ⟨[], 0, []⟩) =
      sentMsgs [AppCall.recv,
        AppCall.send { type := "http.response.start", status := 200 },
        AppCall.send { type := "http.response.body", body := [111] }] := by
  refine ⟨by decide, ?_⟩
  exact (capture_transparent ⟨false, true, false, false⟩ ⟨"http", "/".data, "POST"⟩ "/".data
    ⟨true, 10, []⟩
    [AppCall.recv,
      AppCall.send { type := "http.response.start", status := 200 },
      AppCall.send { type := "http.response.body", body := [111] }]
    [{ type := "http.request", body := [104] }] ⟨[], 0, []⟩ (by decide)).1


theorem runApp_commit_before_final (sb : SpanBehavior) (scope : Scope) (path : List Char)
    (cfg : OtelCaptureConfig) :
    ∀ (calls : List AppCall) (ins : List Msg) (st : ExState) (n : Nat) (m : Msg),
      (runApp sb scope path cfg calls ins st).get? n = some (Event.forwarded m) →
      m.type = "http.response.body" → m.more_body = false →
      ∃ w, 1 ≤ n ∧
        (runApp sb scope path cfg calls ins st).get? (n - 1) = some (Event.commit w) := by
  intro calls
  induction calls with
  | nil =>
    intro ins st n m h _ _
    simp [runApp] at h
  | cons c calls ih =>
    intro ins st n m h hty hmb
    cases c with
    | recv =>
      cases ins with
      | nil => simp [runApp] at h
      | cons mi ins =>
        match n, h with
        | 0, h =>
          rw [show (runApp sb scope path cfg (AppCall.recv :: calls) (mi :: ins) st).get? 0 =
            some (Event.underlyingRecv mi) from rfl] at h
          exact absurd (Option.some.inj h) (by intro hcon; cases hcon)
        | 1, h =>
          rw [show (runApp sb scope path cfg (AppCall.recv :: calls) (mi :: ins) st).get? 1 =
            some (Event.deliveredToApp (receive_wrapper st mi).2) from rfl] at h
          exact absurd (Option.some.inj h) (by intro hcon; cases hcon)
        | Nat.succ (Nat.succ n), h =>
          rw [show (runApp sb scope path cfg (AppCall.recv :: calls) (mi :: ins) st).get?
              (n + 2) =
            (runApp sb scope path cfg calls ins (receive_wrapper st mi).1).get? n from rfl] at h
          obtain ⟨w, hn, hw⟩ := ih ins (receive_wrapper st mi).1 n m h hty hmb
          refine ⟨w, by omega, ?_⟩
          have hidx : n + 2 - 1 = (n - 1) + 2 := by omega
          rw [hidx]
          rw [show (runApp sb scope path cfg (AppCall.recv :: calls) (mi :: ins) st).get?
              ((n - 1) + 2) =
            (runApp sb scope path cfg calls ins (receive_wrapper st mi).1).get? (n - 1)
            from rfl]
          exact hw
    | send m0 =>
      obtain hsh := send_wrapper_events_shape sb scope path cfg st m0
      have hrw : runApp sb scope path cfg (AppCall.send m0 :: calls) ins st =
          (send_wrapper sb scope path cfg st m0).2 ++
            runApp sb scope path cfg calls ins (send_wrapper sb scope path cfg st m0).1 := rfl
      by_cases hc : m0.type = "http.response.body" ∧ m0.more_body = false
      · obtain ⟨w0, hw0⟩ := hsh.1 hc
        rw [hrw, hw0] at h ⊢
        match n, h with
        | 0, h =>
          simp only [List.cons_append, List.get?_cons_zero, Option.some.injEq] at h
          cases h
        | 1, h =>
          exact ⟨w0, by omega, rfl⟩
        | Nat.succ (Nat.succ n), h =>
          simp only [List.cons_append, List.get?_cons_succ, List.nil_append] at h
          obtain ⟨w, hn, hw⟩ := ih ins (send_wrapper sb scope path cfg st m0).1 n m h hty hmb
          refine ⟨w, by omega, ?_⟩
          have hidx : n + 2 - 1 = (n - 1) + 2 := by omega
          rw [hidx]
          simp only [List.cons_append, List.get?_cons_succ, List.nil_append]
          exact hw
      · have hw0 := hsh.2 hc
        rw [hrw, hw0] at h ⊢
        match n, h with
        | 0, h =>
          simp only [List.cons_append, List.get?_cons_zero, Option.some.injEq,
            List.nil_append] at h
          cases h
          exact absurd ⟨hty, hmb⟩ hc
        | Nat.succ n, h =>
          simp only [List.cons_append, List.get?_cons_succ, List.nil_append] at h
          obtain ⟨w, hn, hw⟩ := ih ins (send_wrapper sb scope path cfg st m0).1 n m h hty hmb
          refine ⟨w, by omega, ?_⟩
          have hidx : n + 1 - 1 = (n - 1) + 1 := by omega
          rw [hidx]
          simp only [List.cons_append, List.get?_cons_succ, List.nil_append]
          exact hw

/-- C1: in every captured exchange (http scope, capture enabled, path not
excluded), the forwarding of a final `http.response.body` chunk is
immediately preceded in the event trace by the commit that performs the
span-attribute writes: the middleware never forwards the final chunk before
the commit step has run. -/
theorem commit_before_final_forward (sb : SpanBehavior) (cfg : OtelCaptureConfig)
    (scope : Scope) (calls : List AppCall) (ins : List Msg) (tr : List Event)
    (hhttp : scope.type = "http") (hen : cfg.enabled = true)
    (hexc : cfg.excluded_paths.any (fun exc => exc.isPrefixOf scope.path) = false)
    (htr : middleware sb cfg scope calls ins = MWResult.captured tr)
    (n : Nat) (m : Msg)
    (hm : tr.get? n = some (Event.forwarded m))
    (hty : m.type = "http.response.body") (hmb : m.more_body = false) :
    ∃ w, 1 ≤ n ∧ tr.get? (n - 1) = some (Event.commit w) := by
  have htr2 : runApp sb scope scope.path cfg calls ins ⟨[], 0, []⟩ = tr := by
    unfold middleware at htr
    rw [if_neg (by simp [hhttp, hen]), if_neg (by simp [hexc])] at htr
    exact MWResult.captured.inj htr
  rw [← htr2] at hm ⊢
  exact runApp_commit_before_final sb scope scope.path cfg calls ins ⟨[], 0, []⟩ n m
    hm hty hmb

/-- C1 witness: a concrete captured exchange (status then final body chunk);
the final chunk is forwarded at trace position 2, the commit sits at 1. -/
theorem commit_before_final_forward_witness :
    ∃ w, 1 ≤ 2 ∧
      (runApp ⟨false, true, false, false⟩ ⟨"http", "/".data, "GET"⟩ "/".data ⟨true, 10, []⟩
          [AppCall.send { type := "http.response.start", status := 200 },
            AppCall.send { type := "http.response.body", body := [111] }]
          [] ⟨[], 0, []⟩).get? (2 - 1) = some (Event.commit w) :=
  commit_before_final_forward ⟨false, true, false, false⟩ ⟨true, 10, []⟩
    ⟨"http", "/".data, "GET"⟩
    [AppCall.send { type := "http.response.start", status := 200 },
      AppCall.send { type := "http.response.body", body := [111] }]
    []
    (runApp ⟨false, true, false, false⟩ ⟨"http", "/".data, "GET"⟩ "/".data ⟨true, 10, []⟩
      [AppCall.send { type := "http.response.start", status := 200 },
        AppCall.send { type := "http.response.body", body := [111] }]
      [] ⟨[], 0, []⟩)
    rfl rfl rfl rfl 2 { type := "http.response.body", body := [111] } rfl rfl rfl


/-- C9: when no response body chunk with non-empty bytes is observed, the
response accumulator stays empty and every `output.value` record committed
for the exchange is exactly the single `status` entry — no `body`,
`body_size`, `truncated` or `error` key even for status ≥ 400, because error
extraction only runs when at least one non-empty chunk accumulated. -/
theorem output_only_status (sb : SpanBehavior) (scope : Scope) (path : List Char)
    (cfg : OtelCaptureConfig) (status : Nat) :
    build_output_data cfg status [] = [("status", JsonVal.num (status : Int))] ∧
    (∀ (calls : List AppCall) (ins : List Msg) (st : ExState),
      st.response_body_parts = [] →
      (∀ mm, AppCall.send mm ∈ calls → mm.body = []) →
      ∀ ws, Event.commit ws ∈ runApp sb scope path cfg calls ins st →
        ∀ rec, ("output.value", rec) ∈ ws →
          ∃ stt : Nat, rec = [("status", JsonVal.num (stt : Int))]) := by
  constructor
  · rfl
  · intro calls
    induction calls with
    | nil =>
      intro ins st _ _ ws hws
      simp [runApp] at hws
    | cons c calls ih =>
      intro ins st hst hempty ws hws rec hrec
      cases c with
      | recv =>
        cases ins with
        | nil => simp [runApp] at hws
        | cons mi ins =>
          have hmem : Event.commit ws ∈
              runApp sb scope path cfg calls ins (receive_wrapper st mi).1 := by
            simpa [runApp] using hws
          exact ih ins (receive_wrapper st mi).1
            (by rw [receive_wrapper_resp_parts]; exact hst)
            (fun mm hmm => hempty mm (List.mem_cons_of_mem _ hmm)) ws hmem rec hrec
      | send m0 =>
        have hb0 : m0.body = [] := hempty m0 (List.mem_cons_self _ _)
        have hstparts :
            (send_wrapper sb scope path cfg st m0).1.response_body_parts = [] := by
          rw [send_wrapper_resp_parts_empty sb scope path cfg st m0 hb0]
          exact hst
        have hsplit : Event.commit ws ∈ (send_wrapper sb scope path cfg st m0).2 ∨
            Event.commit ws ∈ runApp sb scope path cfg calls ins
              (send_wrapper sb scope path cfg st m0).1 := by
          simpa [runApp, List.mem_append] using hws
        rcases hsplit with hin | hin
        · have hwseq := send_wrapper_commit_mem sb scope path cfg st m0 ws hin
          rw [hwseq] at hrec
          have hout := set_span_attributes_output_mem sb scope path cfg _ _ _ rec hrec
          rw [hstparts] at hout
          exact ⟨(send_wrapper sb scope path cfg st m0).1.response_status, hout⟩
        · exact ih ins (send_wrapper sb scope path cfg st m0).1 hstparts
            (fun mm hmm => hempty mm (List.mem_cons_of_mem _ hmm)) ws hin rec hrec

/-- C9 witness: a 200 exchange whose only body chunk is empty commits an
`output.value` record with exactly the `status` key. -/
theorem output_only_status_witness :
    ∃ stt : Nat,
      build_output_data ⟨true, 10, []⟩ 200 [] =
        [("status", JsonVal.num (stt : Int))] :=
  (output_only_status ⟨false, true, false, false⟩ ⟨"http", "/".data, "GET"⟩ "/".data
      ⟨true, 10, []⟩ 404).2
    [AppCall.send { type := "http.response.start", status := 200 },
      AppCall.send { type := "http.response.body" }]
    [] ⟨[], 0, []⟩ rfl
    (by
      intro mm hmm
      simp only [List.mem_cons, List.not_mem_nil, or_false, AppCall.send.injEq] at hmm
      rcases hmm with h | h <;> subst h <;> rfl)
    (set_span_attributes ⟨false, true, false, false⟩ ⟨"http", "/".data, "GET"⟩ "/".data
      ⟨true, 10, []⟩ [] 200 [])
    (by
      rw [show runApp ⟨false, true, false, false⟩ ⟨"http", "/".data, "GET"⟩ "/".data
          ⟨true, 10, []⟩
          [AppCall.send { type := "http.response.start", status := 200 },
            AppCall.send { type := "http.response.body" }] [] ⟨[], 0, []⟩ =
        [Event.forwarded { type := "http.response.start", status := 200 },
          Event.commit (set_span_attributes ⟨false, true, false, false⟩
            ⟨"http", "/".data, "GET"⟩ "/".data ⟨true, 10, []⟩ [] 200 []),
          Event.forwarded { type := "http.response.body" }] from rfl]
      exact List.mem_cons_of_mem _ (List.mem_cons_self _ _))
    (build_output_data ⟨true, 10, []⟩ 200 [])
    (by
      rw [show set_span_attributes ⟨false, true, false, false⟩ ⟨"http", "/".data, "GET"⟩
          "/".data ⟨true, 10, []⟩ [] 200 [] =
        [("input.value", build_input_data "GET" "/".data ⟨true, 10, []⟩ []),
          ("output.value", build_output_data ⟨true, 10, []⟩ 200 [])] from rfl]
      exact List.mem_cons_of_mem _ (List.mem_cons_self _ _))

end OtelCapture
